import Mathlib

/-!
Verification of the capnproto-rust RPC runtime (`capnp-rpc`) against its
specification.  The definitions below are a shallow embedding of the Rust
source: `src/lib.rs` (the `RpcSystem` facade, `ForkedPromise`,
`AttachFuture`, `new_promise_client`) and
`capnp-rpc/examples/hello-world/server.rs`.  Components of the crate whose
source is not available here (`rpc.rs`, `queued.rs`, `broken.rs`) are
modelled from the specification where a claim needs them; each such
definition carries a doc comment saying so.

Rust's single-threadedness (everything lives on one executor behind
`Rc<RefCell<...>>`) lets us model the stateful code as pure state-passing
functions.
-/

namespace CapnpRpc

/-! ## Futures model

A `futures 0.1` future is polled repeatedly; each poll yields
`Ok(NotReady)`, `Ok(Ready(v))` or `Err(e)`.  We model a future by the
deterministic sequence of responses its successive polls produce: a list
that `pollF` consumes from the front (an exhausted list keeps answering
`NotReady`, like a future that never completes).  The number of elements
consumed is exactly the number of times the future has been polled, so
"the underlying future is never polled again" is visible as the model
future being left unchanged. -/

/-- One poll result: `Ok(Async::NotReady)`, `Ok(Async::Ready v)` or `Err e`. -/
inductive PollRes (T E : Type) where
  | notReady : PollRes T E
  | ready (v : T) : PollRes T E
  | errored (e : E) : PollRes T E
deriving DecidableEq, Repr

/-- A future, modelled by the stream of responses its polls will produce. -/
structure FutureM (T E : Type) where
  resps : List (PollRes T E)
deriving Repr

/-- Poll a modelled future: consume the next scripted response. -/
def pollF {T E : Type} (f : FutureM T E) : PollRes T E × FutureM T E :=
  match f.resps with
  | [] => (PollRes.notReady, f)
  | r :: rest => (r, ⟨rest⟩)

/-! ### ForkedPromise (`src/lib.rs` lines 299-382)

`ForkedPromise<F>` shares `Rc<RefCell<ForkedPromiseInner>>` among all of
its clones; the inner value holds the original future and a state that is
either `Waiting(waiters)` or `Done(Result)`.  Since every clone polls the
same shared cell, modelling the shared inner value models every clone at
once.  The `waiters` list only stores parked task handles for wakeup and
does not affect which results polls return, so it is not part of the
model state. -/

/-- `ForkedPromiseState`: `Waiting` or `Done(Result<T, E>)`. -/
inductive FPState (T E : Type) where
  | waiting : FPState T E
  | done (r : Except E T) : FPState T E
deriving Repr

/-- The shared `ForkedPromiseInner`: the original future plus the state. -/
structure ForkedInner (T E : Type) where
  original_future : FutureM T E
  state : FPState T E
deriving Repr

/-- `ForkedPromise::new`: wrap a future, starting in the `Waiting` state. -/
def ForkedInner.new {T E : Type} (f : FutureM T E) : ForkedInner T E :=
  ⟨f, FPState.waiting⟩

/-- The poll result a settled (`Done`) state hands out: `Ready(v.clone())`
for `Ok(v)`, `Err(e.clone())` for `Err(e)` (cloning is identity in the
model). -/
def settledRes {T E : Type} (r : Except E T) : PollRes T E :=
  match r with
  | Except.ok v => PollRes.ready v
  | Except.error e => PollRes.errored e

/-- `<ForkedPromise as Future>::poll` (lines 352-381): in `Waiting`, poll
the original future; `NotReady` parks the task and returns `NotReady`;
`Ready(v)` / `Err(e)` store `Done(result)` and return the result.  In
`Done`, return a clone of the stored result without touching the original
future. -/
def pollFP {T E : Type} (inner : ForkedInner T E) :
    PollRes T E × ForkedInner T E :=
  match inner.state with
  | FPState.done r => (settledRes r, inner)
  | FPState.waiting =>
    match pollF inner.original_future with
    | (PollRes.notReady, f') => (PollRes.notReady, ⟨f', FPState.waiting⟩)
    | (PollRes.ready v, f') => (PollRes.ready v, ⟨f', FPState.done (Except.ok v)⟩)
    | (PollRes.errored e, f') => (PollRes.errored e, ⟨f', FPState.done (Except.error e)⟩)

/-- Poll the shared forked-promise cell `n` times (as the clones do, in
some interleaving: they all hit the same cell), collecting the results. -/
def pollFPn {T E : Type} : Nat → ForkedInner T E → List (PollRes T E) × ForkedInner T E
  | 0, inner => ([], inner)
  | n + 1, inner =>
    let p := pollFP inner
    let rest := pollFPn n p.2
    (p.1 :: rest.1, rest.2)

/-! ### AttachFuture (`src/lib.rs` lines 391-422)

`AttachFuture<F, T>` holds the original future and `value: Option<T>`;
`poll` forwards to the original future and calls `self.value.take()`
exactly when the result is `Ok(Async::Ready(_))`. -/

/-- `AttachFuture`: the original future plus the attached value. -/
structure AttachF (T E V : Type) where
  original_future : FutureM T E
  value : Option V
deriving Repr

/-- `attach` (lines 411-420): wrap a future, keeping the value alive. -/
def attach {T E V : Type} (f : FutureM T E) (v : V) : AttachF T E V :=
  ⟨f, some v⟩

/-- `<AttachFuture as Future>::poll` (lines 402-408): poll the original
future, drop (`take`) the attached value when the result is `Ready`, and
return the result unchanged. -/
def pollA {T E V : Type} (a : AttachF T E V) : PollRes T E × AttachF T E V :=
  let p := pollF a.original_future
  (p.1, ⟨p.2, match p.1 with
              | PollRes.ready _ => none
              | _ => a.value⟩)

/-- Poll an `AttachFuture` `n` times, collecting the results. -/
def pollAn {T E V : Type} : Nat → AttachF T E V → List (PollRes T E) × AttachF T E V
  | 0, a => ([], a)
  | n + 1, a =>
    let p := pollA a
    let rest := pollAn n p.2
    (p.1 :: rest.1, rest.2)

/-- Poll a bare future `n` times, collecting the results. -/
def pollFn {T E : Type} : Nat → FutureM T E → List (PollRes T E) × FutureM T E
  | 0, f => ([], f)
  | n + 1, f =>
    let p := pollF f
    let rest := pollFn n p.2
    (p.1 :: rest.1, rest.2)

/-- Does a poll result count as `Ok(Async::Ready(_))`? -/
def PollRes.isReady {T E : Type} : PollRes T E → Bool
  | PollRes.ready _ => true
  | _ => false

/-! ## The RpcSystem facade (`src/lib.rs` lines 125-296)

`RpcSystem<VatId>` owns the network, the stored bootstrap capability hook
and `Rc<RefCell<Option<Rc<ConnectionState>>>>` — zero or one connection
state.  Hooks are `Box<ClientHook>` / `Rc` handles, so `clone()` yields a
handle to the same object: cloning is identity in the model. -/

/-- A runtime capability hook (`Box<ClientHook>`).  Variants per the
closed set the crate uses: a broken hook carrying an error, a
user-supplied capability, and a hook for a pipelined answer path. -/
inductive ClientHook where
  | broken (err : String)
  | user (id : Nat)
  | pipelinedAnswer (questionId : Nat) (path : List Nat)
deriving DecidableEq, Repr

/-- The outcome of starting a call on a hook. -/
inductive CallOutcome where
  | delivered (target : ClientHook) (params : Nat)
deriving DecidableEq, Repr

/-- Modelled from the spec: `broken.rs` is not under `src/`.  Spec §2
item 3, "Broken Client: a hook that fails every call with a stored
error"; every other hook variant accepts and delivers the call. -/
def ClientHook.call (hook : ClientHook) (params : Nat) :
    Except String CallOutcome :=
  match hook with
  | ClientHook.broken e => Except.error e
  | h => Except.ok (CallOutcome.delivered h params)

/-- A transport connection (`Connection<VatId>` trait, lines 125-136):
identified by its peer vat id plus a tag distinguishing distinct
connections returned by the network. -/
structure Connection (VatId : Type) where
  peerVatId : VatId
  connId : Nat
deriving Repr

/-- `VatNetwork<VatId>` (lines 138-144): `connect` returns `None` exactly
when the host id refers to the local vat; `accept` waits for the next
incoming connection, modelled by a queue that `accept` pops. -/
structure VatNetwork (VatId : Type) where
  connect : VatId → Option (Connection VatId)
  acceptQueue : List (Connection VatId)

/-- `VatNetwork::accept`: take the next incoming connection (`none` when
none is pending yet — the promise has not resolved). -/
def VatNetwork.accept {VatId : Type} (net : VatNetwork VatId) :
    Option (Connection VatId × VatNetwork VatId) :=
  match net.acceptQueue with
  | [] => none
  | c :: rest => some (c, ⟨net.connect, rest⟩)

/-- Modelled from the spec: `rpc.rs` (`ConnectionState`) is not under
`src/`.  Only the fields `lib.rs` passes to `ConnectionState::new`
matter here: the bootstrap capability and the connection (the
on-disconnect fulfiller and spawner are runtime plumbing); plus the
next question id for `ConnectionState::bootstrap` (§4.4: "Allocate a
question id Q (smallest free non-negative integer)", initially 0). -/
structure ConnectionState (VatId : Type) where
  bootstrapCap : ClientHook
  connection : Connection VatId
  nextQuestionId : Nat
deriving Repr

/-- `ConnectionState::new(bootstrap_cap, connection, ...)` as called at
`lib.rs` line 263; tables start empty, so the first question id is 0. -/
def ConnectionState.new {VatId : Type} (bootstrapCap : ClientHook)
    (connection : Connection VatId) : ConnectionState VatId :=
  ⟨bootstrapCap, connection, 0⟩

/-- Modelled from the spec: `ConnectionState::bootstrap` lives in
`rpc.rs`, not under `src/`.  Spec §4.8: "open/reuse a connection, send a
`Bootstrap` message, and return a hook for the resulting pipelined
answer (path = root)". -/
def ConnectionState.bootstrap {VatId : Type} (state : ConnectionState VatId) :
    ClientHook :=
  ClientHook.pipelinedAnswer state.nextQuestionId []

/-- A background task registered with the `TaskSet` handle. -/
inductive RpcTask where
  | acceptLoop
  | onDisconnectWatcher
deriving DecidableEq, Repr

/-- `RpcSystem<VatId>` (lines 156-169): the network, the stored bootstrap
capability hook, the zero-or-one connection state cell, and the task-set
handle (modelled as the list of registered tasks; spawner and canceller
are runtime plumbing). -/
structure RpcSystem (VatId : Type) where
  network : VatNetwork VatId
  bootstrap_cap : ClientHook
  connection_state : Option (ConnectionState VatId)
  tasks : List RpcTask

/-- `RpcSystem::new` (lines 173-202): a missing bootstrap capability is
replaced by a broken hook with the error "no bootstrap capabiity" (sic);
the connection-state cell starts as `None` and the accept loop is added
to the task set. -/
def RpcSystem.new {VatId : Type} (network : VatNetwork VatId)
    (bootstrap : Option ClientHook) : RpcSystem VatId :=
  let bootstrap_cap := match bootstrap with
    | some cap => cap
    | none => ClientHook.broken "no bootstrap capabiity"
  { network := network
    bootstrap_cap := bootstrap_cap
    connection_state := none
    tasks := [RpcTask.acceptLoop] }

/-- `RpcSystem::get_connection_state` (lines 238-268): if a connection
state is already installed, return it early (the freshly passed
connection is unused); otherwise build a new state with
`ConnectionState::new`, register the on-disconnect watcher task, and
install the state in the cell. -/
def RpcSystem.get_connection_state {VatId : Type} (sys : RpcSystem VatId)
    (connection : Connection VatId) :
    ConnectionState VatId × RpcSystem VatId :=
  match sys.connection_state with
  | some state => (state, sys)
  | none =>
    let result := ConnectionState.new sys.bootstrap_cap connection
    (result, { sys with
               connection_state := some result
               tasks := sys.tasks ++ [RpcTask.onDisconnectWatcher] })

/-- `RpcSystem::bootstrap` (lines 205-221): if `connect(vat_id)` returns
`None` the vat is local and the stored bootstrap hook is cloned and
returned; otherwise obtain the connection state and return
`ConnectionState::bootstrap` of it. -/
def RpcSystem.bootstrap {VatId : Type} (sys : RpcSystem VatId)
    (vat_id : VatId) : ClientHook × RpcSystem VatId :=
  match sys.network.connect vat_id with
  | none => (sys.bootstrap_cap, sys)
  | some connection =>
    let p := sys.get_connection_state connection
    (ConnectionState.bootstrap p.1, p.2)

/-- `RpcSystem::accept_loop` (lines 224-236, "not really a loop"): wait
for one incoming connection from the network and feed it to
`get_connection_state`.  Returns `none` while no connection is pending. -/
def RpcSystem.accept_loop {VatId : Type} (sys : RpcSystem VatId) :
    Option (RpcSystem VatId) :=
  match sys.network.accept with
  | none => none
  | some (connection, net') =>
    some ({ sys with network := net' }.get_connection_state connection).2

/-- The continuation registered on the on-disconnect promise
(lines 256-262): when the fulfiller fires (or is dropped), set the
connection-state cell back to `None`, then run the shutdown promise the
fulfiller carried; a receive error becomes a failed task
(`Promise::err`).  The task's eventual result is its `Except` value. -/
def onDisconnectHandler {VatId : Type}
    (_cell : Option (ConnectionState VatId))
    (shutdown_promise : Except String (Except String Unit)) :
    Option (ConnectionState VatId) × Except String Unit :=
  (none,
   match shutdown_promise with
   | Except.ok s => s
   | Except.error e => Except.error e)

/-! ## Queued client (`new_promise_client`, `src/lib.rs` lines 291-296)

`new_promise_client` wraps `queued::Client::new(promise)`; the queued
client itself lives in `queued.rs`, which is not under `src/`, so it is
modelled from spec §4.2. -/

/-- Modelled from the spec: `queued.rs` is not under `src/`.  Spec §4.2:
states `Pending(queue)`, `Resolved(backingHook)`, `Broken(error)`; the
`resolved` state records the ordered list of calls the backing hook has
received (queued calls are drained to it in FIFO order on resolution). -/
inductive QueuedClient (C : Type) where
  | pending (queue : List C)
  | resolved (delivered : List C)
  | broken (err : String)
deriving DecidableEq, Repr

/-- `queued::Client::new`: start with an empty pending queue
(`new_promise_client`, `lib.rs` line 295). -/
def QueuedClient.new {C : Type} : QueuedClient C :=
  QueuedClient.pending []

/-- Modelled from the spec (§4.2): `call` while `Pending` appends to the
queue; after resolution calls pass through directly to the backing hook;
on a `Broken` client every call fails with the stored error. -/
def QueuedClient.call {C : Type} (q : QueuedClient C) (c : C) : QueuedClient C :=
  match q with
  | QueuedClient.pending queue => QueuedClient.pending (queue ++ [c])
  | QueuedClient.resolved delivered => QueuedClient.resolved (delivered ++ [c])
  | QueuedClient.broken e => QueuedClient.broken e

/-- Modelled from the spec (§4.2): on resolution, drain the queue by
re-issuing each queued call against the backing hook in FIFO order; a
failed resolving promise moves to `Broken` instead. -/
def QueuedClient.resolve {C : Type} (q : QueuedClient C)
    (outcome : Except String Unit) : QueuedClient C :=
  match q, outcome with
  | QueuedClient.pending queue, Except.ok _ => QueuedClient.resolved queue
  | QueuedClient.pending _, Except.error e => QueuedClient.broken e
  | other, _ => other

/-- Issue a sequence of calls in order. -/
def QueuedClient.callAll {C : Type} (q : QueuedClient C) (cs : List C) :
    QueuedClient C :=
  cs.foldl QueuedClient.call q

/-! ## Hello-world server (`capnp-rpc/examples/hello-world/server.rs`)

`HelloWorldImpl::say_hello` (lines 34-47) reads `request.name` from the
params, formats `"Hello, {}!"` around it, writes it to `reply.message`
and returns `Promise::ok(())`. -/

/-- The `HelloRequest` struct of the hello-world schema. -/
structure HelloRequest where
  name : String
deriving DecidableEq, Repr

/-- `SayHelloParams`: carries the request. -/
structure SayHelloParams where
  request : HelloRequest
deriving DecidableEq, Repr

/-- The `HelloReply` struct: the message written into the results. -/
structure HelloReply where
  message : String
deriving DecidableEq, Repr

/-- `HelloWorldImpl::say_hello`: build `format!("Hello, {}!", name)`,
store it in the reply, complete with `Promise::ok(())`.  The returned
`Except` is the handler's completion promise carrying the written
results. -/
def say_hello (params : SayHelloParams) : Except String HelloReply :=
  let name := params.request.name
  let message := "Hello, " ++ name ++ "!"
  Except.ok ⟨message⟩

/-! ## Question lifecycle on a connection (claim about `rpc.rs`)

`rpc.rs` is not under `src/`; the machine below is modelled from spec
§4.4 (dispatch of `Return`, question ids allocated as the smallest free
non-negative integer, so a retired id becomes free again and may be
reused), §5 (cancellation: `Finish(Q)` may be sent before Q's `Return`
has arrived), §3 (a question is retired once its `Finish` has been sent
AND its `Return` received, in either order) and §4.7 (protocol errors
such as a `Return` for an unknown or already-returned question drive
the connection to `Disconnected`, which refuses all further
operations). -/

/-- The lifecycle state of one live question in the question table:
`waiting` (Call sent, neither Return nor Finish yet), `returned`
(Return received, Finish not yet sent), or `finishCalled` (Finish sent
first — cancellation, §5 — Return still pending). -/
inductive QState where
  | waiting
  | returned
  | finishCalled
deriving DecidableEq, Repr

/-- Wire events on one connection, seen from the question side. -/
inductive ConnEvent where
  | sendCall (q : Nat)
  | recvReturn (q : Nat)
  | sendFinish (q : Nat)
  | disconnect
deriving DecidableEq, Repr

/-- Connection state for the question lifecycle: the question table (an
association list from id to lifecycle state, holding exactly the live
questions) and the disconnected flag. -/
structure ConnSt where
  qtable : List (Nat × QState)
  disconnected : Bool
deriving DecidableEq, Repr

/-- The initial connection state: empty table, connected. -/
def ConnSt.init : ConnSt := ⟨[], false⟩

/-- Look up a question id in the question table. -/
def qlookup (t : List (Nat × QState)) (q : Nat) : Option QState :=
  match t with
  | [] => none
  | (k, s) :: rest => if k = q then some s else qlookup rest q

/-- Replace the state of a question id in the table. -/
def qset (t : List (Nat × QState)) (q : Nat) (s : QState) :
    List (Nat × QState) :=
  match t with
  | [] => []
  | (k, s0) :: rest =>
    if k = q then (k, s) :: rest else (k, s0) :: qset rest q s

/-- Remove a question id from the table (retire it). -/
def qremove (t : List (Nat × QState)) (q : Nat) : List (Nat × QState) :=
  match t with
  | [] => []
  | (k, s0) :: rest =>
    if k = q then rest else (k, s0) :: qremove rest q

/-- Modelled from the spec: one step of the connection, `none` meaning
the implementation never produces this event in this state (local sends
are under its control; `disconnect` abstracts transport failure or
`Abort`).  A `Call` may use any question id that is not currently live
(§4.4 allocates the smallest free id; retired ids are free again, and
allowing any free id admits every such allocation).  A `Return` can
always arrive: one matching a waiting question marks it returned; one
matching a cancelled (`finishCalled`) question retires it (§3: Finish
sent and Return received); any other — unknown id or a duplicate — is
a protocol error and disconnects the connection (§4.7).  `Finish` is
sent for a returned question, retiring it, or for a waiting question —
cancellation, §5 — marking it `finishCalled`; it is never sent twice.
After disconnection every operation is refused. -/
def ConnSt.step (st : ConnSt) (ev : ConnEvent) : Option ConnSt :=
  match ev with
  | ConnEvent.sendCall q =>
    if st.disconnected then none
    else
      match qlookup st.qtable q with
      | none => some { st with qtable := (q, QState.waiting) :: st.qtable }
      | some _ => none
  | ConnEvent.recvReturn q =>
    if st.disconnected then none
    else
      match qlookup st.qtable q with
      | some QState.waiting =>
        some { st with qtable := qset st.qtable q QState.returned }
      | some QState.finishCalled =>
        some { st with qtable := qremove st.qtable q }
      | _ => some { st with disconnected := true }
  | ConnEvent.sendFinish q =>
    if st.disconnected then none
    else
      match qlookup st.qtable q with
      | some QState.returned => some { st with qtable := qremove st.qtable q }
      | some QState.waiting =>
        some { st with qtable := qset st.qtable q QState.finishCalled }
      | _ => none
  | ConnEvent.disconnect =>
    if st.disconnected then none
    else some { st with disconnected := true }

/-- Run a trace of events from a state; `none` when some event is one
the implementation cannot produce. -/
def ConnSt.run (st : ConnSt) : List ConnEvent → Option ConnSt
  | [] => some st
  | ev :: rest =>
    match st.step ev with
    | none => none
    | some st' => st'.run rest

/-- Number of `Return` messages received for question `q` in a trace. -/
def countReturn (q : Nat) : List ConnEvent → Nat
  | [] => 0
  | ConnEvent.recvReturn q0 :: rest =>
    (if q0 = q then 1 else 0) + countReturn q rest
  | _ :: rest => countReturn q rest

/-- Number of `Finish` messages sent for question `q` in a trace. -/
def countFinish (q : Nat) : List ConnEvent → Nat
  | [] => 0
  | ConnEvent.sendFinish q0 :: rest =>
    (if q0 = q then 1 else 0) + countFinish q rest
  | _ :: rest => countFinish q rest

/-- Number of `Call` messages sent with question id `q` in a trace
(each one opens a fresh incarnation of the id). -/
def countCall (q : Nat) : List ConnEvent → Nat
  | [] => 0
  | ConnEvent.sendCall q0 :: rest =>
    (if q0 = q then 1 else 0) + countCall q rest
  | _ :: rest => countCall q rest

/-- A connection's lifetime is over when it has disconnected or when it
ends with every question retired. -/
def ConnSt.complete (st : ConnSt) : Bool :=
  st.disconnected || st.qtable.isEmpty

/-- The question ids appearing in a question table. -/
def keysOf (t : List (Nat × QState)) : List Nat :=
  t.map Prod.fst

/-- Well-formedness of a connection state: no question id occurs twice
in the table. -/
def ConnSt.Wf (st : ConnSt) : Prop :=
  (keysOf st.qtable).Nodup

/-- The number of `Return`s still owed for id `q` by its live
incarnation: 1 while a Return is pending (`waiting` or cancelled), 0
once returned or when no incarnation is live. -/
def retLag (st : ConnSt) (q : Nat) : Nat :=
  match qlookup st.qtable q with
  | some QState.waiting => 1
  | some QState.returned => 0
  | some QState.finishCalled => 1
  | none => 0

/-- The number of `Finish`es still owed for id `q` by its live
incarnation: 1 until the Finish has been sent, 0 after (`finishCalled`)
or when no incarnation is live. -/
def finLag (st : ConnSt) (q : Nat) : Nat :=
  match qlookup st.qtable q with
  | some QState.waiting => 1
  | some QState.returned => 1
  | some QState.finishCalled => 0
  | none => 0

/-- The number of connection states an `RpcSystem` holds (its cell is an
`Option`, so zero or one). -/
def connectionCount {VatId : Type} (sys : RpcSystem VatId) : Nat :=
  match sys.connection_state with
  | none => 0
  | some _ => 1

/-! ## Concrete fixtures used by the witness theorems -/

/-- A two-vat network: vat 0 is local (`connect 0 = none`), every other
vat id yields a connection. -/
def netW : VatNetwork Nat :=
  ⟨fun v => if v = 0 then none else some ⟨v, 0⟩, []⟩

/-- A network that considers every vat id local. -/
def netLocalW : VatNetwork Nat :=
  ⟨fun _ => none, []⟩

/-- A network with one pending incoming connection. -/
def netAcceptW : VatNetwork Nat :=
  ⟨fun _ => none, [⟨3, 1⟩]⟩

/-- An `RpcSystem` over `netW` with a user bootstrap capability. -/
def sysW : RpcSystem Nat :=
  RpcSystem.new netW (some (ClientHook.user 5))

/-- `sysW` after its connection state has been installed by a bootstrap
of vat 1. -/
def sysW1 : RpcSystem Nat :=
  (sysW.bootstrap 1).2

/-- The connection state installed in `sysW1`. -/
def csW : ConnectionState Nat :=
  ConnectionState.new (ClientHook.user 5) ⟨1, 0⟩

/-- `sysW1` with a pending incoming connection. -/
def sysWA : RpcSystem Nat :=
  { sysW1 with network := netAcceptW }

/-- What `sysWA.accept_loop` produces: the incoming connection is
consumed and the installed state is kept. -/
def sysWA' : RpcSystem Nat :=
  { sysWA with network := ⟨netAcceptW.connect, []⟩ }

/-- A fresh system with no bootstrap capability and one pending incoming
connection. -/
def sysAcc : RpcSystem Nat :=
  RpcSystem.new netAcceptW none

/-! # Theorems -/

/-! ## Claim C1: bootstrap dispatch in `RpcSystem::bootstrap` -/

/-- C1: for every vat id `V`, `RpcSystem::bootstrap(V)` returns a client
built from a clone of the stored bootstrap capability hook when the
network's `connect(V)` returns `None` (V is local); when `connect(V)`
returns a connection it obtains (opening or reusing) a connection state
via `get_connection_state` and returns the hook produced by
`ConnectionState::bootstrap` on that state. -/
theorem rpc_bootstrap_dispatch {VatId : Type} (sys : RpcSystem VatId)
    (V : VatId) :
    (sys.network.connect V = none →
      sys.bootstrap V = (sys.bootstrap_cap, sys)) ∧
    (∀ c, sys.network.connect V = some c →
      sys.bootstrap V =
        (ConnectionState.bootstrap (sys.get_connection_state c).1,
         (sys.get_connection_state c).2)) := by
  refine ⟨fun h => ?_, fun c h => ?_⟩ <;>
    simp [RpcSystem.bootstrap, h]

/-- Witness for C1: on `sysW`, vat 0 is local and yields the stored
bootstrap hook; vat 1 yields the connection-state bootstrap hook. -/
theorem rpc_bootstrap_dispatch_witness :
    sysW.bootstrap 0 = (sysW.bootstrap_cap, sysW) ∧
    sysW.bootstrap 1 =
      (ConnectionState.bootstrap (sysW.get_connection_state ⟨1, 0⟩).1,
       (sysW.get_connection_state ⟨1, 0⟩).2) :=
  ⟨(rpc_bootstrap_dispatch sysW 0).1 rfl,
   (rpc_bootstrap_dispatch sysW 1).2 ⟨1, 0⟩ rfl⟩

/-! ## Claim C2: ForkedPromise settles once -/

/-- In the `Done` state, every poll of the shared cell returns a clone of
the settled result and leaves the cell — in particular the underlying
future — untouched. -/
lemma pollFPn_done {T E : Type} (inner : ForkedInner T E)
    (r : Except E T) (h : inner.state = FPState.done r) :
    ∀ n, pollFPn n inner = (List.replicate n (settledRes r), inner) := by
  intro n
  induction n with
  | zero => simp [pollFPn]
  | succ n ih =>
    have hp : pollFP inner = (settledRes r, inner) := by
      unfold pollFP
      rw [h]
    simp [pollFPn, hp, ih, List.replicate]

/-- C2: once the underlying future first completes with a result (the
poll from `Waiting` yields something other than `NotReady`), every
subsequent poll of the shared cell — hence of any clone — returns a
clone of that same settled result, and the cell, underlying future
included, is never changed again: the original future is never polled
after the first completion. -/
theorem forked_promise_once_settled {T E : Type}
    (inner inner' : ForkedInner T E) (res : PollRes T E)
    (hw : inner.state = FPState.waiting)
    (hp : pollFP inner = (res, inner'))
    (hs : res ≠ PollRes.notReady) :
    ∀ n, pollFPn n inner' = (List.replicate n res, inner') := by
  unfold pollFP at hp
  rw [hw] at hp
  rcases hpf : pollF inner.original_future with ⟨r0, f'⟩
  rw [hpf] at hp
  cases r0 with
  | notReady =>
    rw [Prod.mk.injEq] at hp
    exact absurd hp.1.symm hs
  | ready v =>
    rw [Prod.mk.injEq] at hp
    obtain ⟨h1, h2⟩ := hp
    subst h1
    subst h2
    exact pollFPn_done _ (Except.ok v) rfl
  | errored e =>
    rw [Prod.mk.injEq] at hp
    obtain ⟨h1, h2⟩ := hp
    subst h1
    subst h2
    exact pollFPn_done _ (Except.error e) rfl

/-- Witness for C2: a future completing with `5` on its first poll; two
further polls of the settled cell both yield `5` and leave it alone. -/
theorem forked_promise_once_settled_witness :
    pollFPn 2 (⟨⟨[]⟩, FPState.done (Except.ok 5)⟩ : ForkedInner Nat String) =
      ([PollRes.ready 5, PollRes.ready 5],
       (⟨⟨[]⟩, FPState.done (Except.ok 5)⟩ : ForkedInner Nat String)) :=
  forked_promise_once_settled
    (ForkedInner.new ⟨[PollRes.ready 5]⟩) _ (PollRes.ready 5)
    rfl rfl (fun h => PollRes.noConfusion h) 2

/-! ## Claim C4: queued client FIFO delivery -/

/-- Calls issued on a pending queued client append to its queue in
order. -/
lemma callAll_pending {C : Type} (cs : List C) :
    ∀ queue, (QueuedClient.pending queue).callAll cs =
      QueuedClient.pending (queue ++ cs) := by
  induction cs with
  | nil => intro queue; simp [QueuedClient.callAll]
  | cons c cs ih =>
    intro queue
    have h1 : (QueuedClient.pending queue).callAll (c :: cs) =
        (QueuedClient.pending (queue ++ [c])).callAll cs := rfl
    rw [h1, ih]
    simp

/-- Calls issued on a resolved queued client pass through to the backing
hook in order. -/
lemma callAll_resolved {C : Type} (cs : List C) :
    ∀ delivered, (QueuedClient.resolved delivered).callAll cs =
      QueuedClient.resolved (delivered ++ cs) := by
  induction cs with
  | nil => intro delivered; simp [QueuedClient.callAll]
  | cons c cs ih =>
    intro delivered
    have h1 : (QueuedClient.resolved delivered).callAll (c :: cs) =
        (QueuedClient.resolved (delivered ++ [c])).callAll cs := rfl
    rw [h1, ih]
    simp

/-- C4: for every sequence `pre` of calls issued on a fresh queued
client before its backing promise resolves and every sequence `post`
issued after resolution, the backing hook receives exactly
`pre ++ post`: the queued calls in their enqueue order, all of them
before any post-resolution call. -/
theorem queued_client_fifo {C : Type} (pre post : List C) :
    (((QueuedClient.new (C := C)).callAll pre).resolve
        (Except.ok ())).callAll post =
      QueuedClient.resolved (pre ++ post) := by
  have h1 : (QueuedClient.new (C := C)).callAll pre =
      QueuedClient.pending pre := by
    simpa using callAll_pending pre []
  rw [h1]
  have h2 : (QueuedClient.pending pre).resolve (Except.ok ()) =
      QueuedClient.resolved pre := rfl
  rw [h2, callAll_resolved]

/-! ## Claim C10: AttachFuture is transparent and drops on Ready -/

/-- C10: polling `attach(f, v)` returns at every step exactly what
polling `f` returns (same item, same error, same readiness) and
advances `f` identically; the attached value stays alive exactly until
`f` first polls `Ready(Ok)`, at which point it is dropped (`None`). -/
theorem attach_forwards_and_drops {T E V : Type} (a : AttachF T E V)
    (n : Nat) :
    (pollAn n a).1 = (pollFn n a.original_future).1 ∧
    (pollAn n a).2.original_future = (pollFn n a.original_future).2 ∧
    (pollAn n a).2.value =
      (if ((pollFn n a.original_future).1.any PollRes.isReady) then
        (none : Option V)
       else a.value) := by
  induction n generalizing a with
  | zero => simp [pollAn, pollFn]
  | succ n ih =>
    rcases hpf : pollF a.original_future with ⟨r, f'⟩
    cases r with
    | ready v =>
      have hA : pollA a = (PollRes.ready v, ⟨f', none⟩) := by
        unfold pollA
        rw [hpf]
      obtain ⟨ih1, ih2, ih3⟩ := ih ⟨f', none⟩
      refine ⟨?_, ?_, ?_⟩ <;>
        simp [pollAn, pollFn, hpf, hA, ih1, ih2, ih3, PollRes.isReady]
    | notReady =>
      have hA : pollA a = (PollRes.notReady, ⟨f', a.value⟩) := by
        unfold pollA
        rw [hpf]
      obtain ⟨ih1, ih2, ih3⟩ := ih ⟨f', a.value⟩
      refine ⟨?_, ?_, ?_⟩ <;>
        simp [pollAn, pollFn, hpf, hA, ih1, ih2, ih3, PollRes.isReady]
    | errored e =>
      have hA : pollA a = (PollRes.errored e, ⟨f', a.value⟩) := by
        unfold pollA
        rw [hpf]
      obtain ⟨ih1, ih2, ih3⟩ := ih ⟨f', a.value⟩
      refine ⟨?_, ?_, ?_⟩ <;>
        simp [pollAn, pollFn, hpf, hA, ih1, ih2, ih3, PollRes.isReady]

/-! ## Claim C5: at most one connection state, reused not duplicated -/

/-- C5: every reachable `RpcSystem` holds at most one connection state,
and every operation that needs one — `get_connection_state` directly,
the bootstrap path, the accept path — returns the already-installed
state unchanged instead of installing a second one. -/
theorem connection_state_at_most_one {VatId : Type}
    (sys : RpcSystem VatId) :
    connectionCount sys ≤ 1 ∧
    (∀ cs, sys.connection_state = some cs →
      (∀ c, sys.get_connection_state c = (cs, sys)) ∧
      (∀ V, (sys.bootstrap V).2.connection_state = some cs) ∧
      (∀ sys', sys.accept_loop = some sys' →
        sys'.connection_state = some cs)) := by
  constructor
  · unfold connectionCount
    cases sys.connection_state <;> simp
  · intro cs hcs
    have hget : ∀ c, sys.get_connection_state c = (cs, sys) := by
      intro c
      unfold RpcSystem.get_connection_state
      rw [hcs]
    refine ⟨hget, fun V => ?_, fun sys' h => ?_⟩
    · unfold RpcSystem.bootstrap
      cases hc : sys.network.connect V with
      | none => simpa using hcs
      | some c => simp [hget c, hcs]
    · unfold RpcSystem.accept_loop at h
      rcases ha : sys.network.accept with _ | ⟨c, net'⟩
      · rw [ha] at h; cases h
      · rw [ha] at h
        simp only at h
        have hg : ({ sys with network := net' } :
            RpcSystem VatId).get_connection_state c =
            (cs, { sys with network := net' }) := by
          unfold RpcSystem.get_connection_state
          rw [show ({ sys with network := net' } :
            RpcSystem VatId).connection_state = some cs from hcs]
        rw [hg] at h
        cases h
        exact hcs

/-- Witness for C5 at `sysWA` (installed state `csW`, one pending
incoming connection). -/
theorem connection_state_at_most_one_witness :
    connectionCount sysWA ≤ 1 ∧
    sysWA.get_connection_state ⟨2, 0⟩ = (csW, sysWA) ∧
    (sysWA.bootstrap 1).2.connection_state = some csW ∧
    sysWA'.connection_state = some csW :=
  ⟨(connection_state_at_most_one sysWA).1,
   ((connection_state_at_most_one sysWA).2 csW rfl).1 ⟨2, 0⟩,
   ((connection_state_at_most_one sysWA).2 csW rfl).2.1 1,
   ((connection_state_at_most_one sysWA).2 csW rfl).2.2 sysWA' rfl⟩

/-! ## Claim C6: the on-disconnect continuation -/

/-- C6: when the on-disconnect fulfiller is signalled, the continuation
sets the stored connection state back to `None` and then runs the
shutdown promise the fulfiller carried; a fulfiller error is converted
into a failed task rather than being ignored. -/
theorem on_disconnect_clears_and_runs {VatId : Type}
    (cell : Option (ConnectionState VatId))
    (sp : Except String (Except String Unit)) :
    (onDisconnectHandler cell sp).1 = none ∧
    (∀ s, sp = Except.ok s → (onDisconnectHandler cell sp).2 = s) ∧
    (∀ e, sp = Except.error e →
      (onDisconnectHandler cell sp).2 = Except.error e) := by
  refine ⟨rfl, fun s h => ?_, fun e h => ?_⟩ <;> subst h <;> rfl

/-- Witness for C6: with state `csW` installed, an errored fulfiller
clears the cell and yields a failed task; a carried shutdown promise is
run as-is. -/
theorem on_disconnect_clears_and_runs_witness :
    (onDisconnectHandler (some csW) (Except.error "oneshot canceled")).1 =
      none ∧
    (onDisconnectHandler (some csW) (Except.error "oneshot canceled")).2 =
      Except.error "oneshot canceled" ∧
    (onDisconnectHandler (some csW) (Except.ok (Except.ok ()))).2 =
      Except.ok () :=
  ⟨(on_disconnect_clears_and_runs (some csW)
      (Except.error "oneshot canceled")).1,
   (on_disconnect_clears_and_runs (some csW)
      (Except.error "oneshot canceled")).2.2 "oneshot canceled" rfl,
   (on_disconnect_clears_and_runs (some csW)
      (Except.ok (Except.ok ()))).2.1 (Except.ok ()) rfl⟩

/-! ## Claim C7: the accept task -/

/-- C7: the accept task is registered at construction; it pulls exactly
one incoming connection from the network via `accept()` and installs a
connection state for it (when none was installed yet). -/
theorem accept_loop_one_connection {VatId : Type}
    (net : VatNetwork VatId) (bootstrap : Option ClientHook)
    (sys : RpcSystem VatId) (c : Connection VatId)
    (rest : List (Connection VatId))
    (hq : sys.network.acceptQueue = c :: rest) :
    (RpcSystem.new net bootstrap).tasks = [RpcTask.acceptLoop] ∧
    ∃ sys', sys.accept_loop = some sys' ∧
      sys'.network.acceptQueue = rest ∧
      (sys.connection_state = none →
        sys'.connection_state =
          some (ConnectionState.new sys.bootstrap_cap c)) := by
  refine ⟨rfl, ?_⟩
  have ha : sys.network.accept = some (c, ⟨sys.network.connect, rest⟩) := by
    unfold VatNetwork.accept
    rw [hq]
  cases hcs : sys.connection_state with
  | some cs =>
    refine ⟨{ sys with network := ⟨sys.network.connect, rest⟩ }, ?_, rfl,
      fun hn => by simp [hcs] at hn⟩
    unfold RpcSystem.accept_loop
    rw [ha]
    unfold RpcSystem.get_connection_state
    simp only []
    rw [show ({ sys with network := ⟨sys.network.connect, rest⟩ } :
      RpcSystem VatId).connection_state = some cs from hcs]
  | none =>
    refine ⟨{ sys with
              network := ⟨sys.network.connect, rest⟩
              connection_state :=
                some (ConnectionState.new sys.bootstrap_cap c)
              tasks := sys.tasks ++ [RpcTask.onDisconnectWatcher] },
            ?_, rfl, fun _ => rfl⟩
    unfold RpcSystem.accept_loop
    rw [ha]
    unfold RpcSystem.get_connection_state
    simp only []
    rw [show ({ sys with network := ⟨sys.network.connect, rest⟩ } :
      RpcSystem VatId).connection_state = none from hcs]

/-- Witness for C7 at `sysAcc` (fresh system, one pending incoming
connection). -/
theorem accept_loop_one_connection_witness :
    (RpcSystem.new netW (some (ClientHook.user 5))).tasks =
      [RpcTask.acceptLoop] ∧
    ∃ sys', sysAcc.accept_loop = some sys' ∧
      sys'.network.acceptQueue = [] ∧
      (sysAcc.connection_state = none →
        sys'.connection_state =
          some (ConnectionState.new sysAcc.bootstrap_cap ⟨3, 1⟩)) :=
  accept_loop_one_connection netW (some (ClientHook.user 5)) sysAcc
    ⟨3, 1⟩ [] rfl

/-! ## Claim C8: the hello-world handler -/

/-- C8: for every name `n`, `say_hello` sets the reply message to
`"Hello, " ++ n ++ "!"` and completes successfully; in particular for
`"Tom"` the reply is `"Hello, Tom!"`. -/
theorem say_hello_message (params : SayHelloParams) :
    say_hello params =
      Except.ok ⟨"Hello, " ++ params.request.name ++ "!"⟩ ∧
    say_hello ⟨⟨"Tom"⟩⟩ = Except.ok ⟨"Hello, Tom!"⟩ :=
  ⟨rfl, rfl⟩

/-! ## Claim C3: exactly one Return and one Finish per question

Helper lemmas about the association-list question table, then the
preservation of well-formedness, then the counting invariant. -/

lemma keysOf_nil : keysOf [] = [] := rfl

lemma keysOf_cons (k : Nat) (s : QState) (rest : List (Nat × QState)) :
    keysOf ((k, s) :: rest) = k :: keysOf rest := rfl

lemma qlookup_eq_none {t : List (Nat × QState)} {q : Nat}
    (h : q ∉ keysOf t) : qlookup t q = none := by
  induction t with
  | nil => rfl
  | cons p rest ih =>
    obtain ⟨k, s⟩ := p
    rw [keysOf_cons, List.mem_cons] at h
    push_neg at h
    simp [qlookup, Ne.symm h.1, ih h.2]

lemma mem_keysOf_of_qlookup {t : List (Nat × QState)} {q : Nat}
    {s : QState} (h : qlookup t q = some s) : q ∈ keysOf t := by
  induction t with
  | nil => cases h
  | cons p rest ih =>
    obtain ⟨k, s0⟩ := p
    rw [keysOf_cons, List.mem_cons]
    by_cases hk : k = q
    · exact Or.inl hk.symm
    · rw [qlookup, if_neg hk] at h
      exact Or.inr (ih h)

lemma keysOf_qset (t : List (Nat × QState)) (q : Nat) (s : QState) :
    keysOf (qset t q s) = keysOf t := by
  induction t with
  | nil => rfl
  | cons p rest ih =>
    obtain ⟨k, s0⟩ := p
    by_cases hk : k = q
    · rw [qset, if_pos hk, keysOf_cons, keysOf_cons]
    · rw [qset, if_neg hk, keysOf_cons, keysOf_cons, ih]

lemma qlookup_qset_self {t : List (Nat × QState)} {q : Nat}
    {s s0 : QState} (h : qlookup t q = some s0) :
    qlookup (qset t q s) q = some s := by
  induction t with
  | nil => cases h
  | cons p rest ih =>
    obtain ⟨k, s1⟩ := p
    by_cases hk : k = q
    · rw [qset, if_pos hk, qlookup, if_pos hk]
    · rw [qlookup, if_neg hk] at h
      rw [qset, if_neg hk, qlookup, if_neg hk]
      exact ih h

lemma qlookup_qset_ne {t : List (Nat × QState)} {q q' : Nat}
    {s : QState} (h : q' ≠ q) :
    qlookup (qset t q s) q' = qlookup t q' := by
  induction t with
  | nil => rfl
  | cons p rest ih =>
    obtain ⟨k, s1⟩ := p
    by_cases hk : k = q
    · have hkq : ¬ k = q' := by rw [hk]; exact fun hc => h hc.symm
      rw [qset, if_pos hk, qlookup, if_neg hkq, qlookup, if_neg hkq]
    · by_cases hk' : k = q'
      · rw [qset, if_neg hk, qlookup, if_pos hk', qlookup, if_pos hk']
      · rw [qset, if_neg hk, qlookup, if_neg hk', qlookup, if_neg hk']
        exact ih

lemma qlookup_qremove_ne {t : List (Nat × QState)} {q q' : Nat}
    (h : q' ≠ q) : qlookup (qremove t q) q' = qlookup t q' := by
  induction t with
  | nil => rfl
  | cons p rest ih =>
    obtain ⟨k, s0⟩ := p
    by_cases hk : k = q
    · have hkq : ¬ k = q' := by rw [hk]; exact fun hc => h hc.symm
      rw [qremove, if_pos hk, qlookup, if_neg hkq]
    · by_cases hk' : k = q'
      · rw [qremove, if_neg hk, qlookup, if_pos hk', qlookup, if_pos hk']
      · rw [qremove, if_neg hk, qlookup, if_neg hk', qlookup, if_neg hk']
        exact ih

lemma qlookup_qremove_self {t : List (Nat × QState)} {q : Nat}
    (h : (keysOf t).Nodup) : qlookup (qremove t q) q = none := by
  induction t with
  | nil => rfl
  | cons p rest ih =>
    obtain ⟨k, s0⟩ := p
    rw [keysOf_cons, List.nodup_cons] at h
    by_cases hk : k = q
    · rw [qremove, if_pos hk]
      exact qlookup_eq_none (hk ▸ h.1)
    · rw [qremove, if_neg hk, qlookup, if_neg hk]
      exact ih h.2

lemma keysOf_qremove_subset {t : List (Nat × QState)} {q q' : Nat}
    (h : q' ∈ keysOf (qremove t q)) : q' ∈ keysOf t := by
  induction t with
  | nil => cases h
  | cons p rest ih =>
    obtain ⟨k, s0⟩ := p
    rw [keysOf_cons, List.mem_cons]
    by_cases hk : k = q
    · rw [qremove, if_pos hk] at h
      exact Or.inr h
    · rw [qremove, if_neg hk, keysOf_cons, List.mem_cons] at h
      rcases h with h | h
      · exact Or.inl h
      · exact Or.inr (ih h)

lemma nodup_keysOf_qremove {t : List (Nat × QState)} {q : Nat}
    (h : (keysOf t).Nodup) : (keysOf (qremove t q)).Nodup := by
  induction t with
  | nil => exact h
  | cons p rest ih =>
    obtain ⟨k, s0⟩ := p
    rw [keysOf_cons, List.nodup_cons] at h
    by_cases hk : k = q
    · rw [qremove, if_pos hk]
      exact h.2
    · rw [qremove, if_neg hk, keysOf_cons, List.nodup_cons]
      exact ⟨fun hm => h.1 (keysOf_qremove_subset hm), ih h.2⟩

lemma not_mem_keysOf_of_qlookup_none {t : List (Nat × QState)} {q : Nat}
    (h : qlookup t q = none) : q ∉ keysOf t := by
  induction t with
  | nil => exact List.not_mem_nil q
  | cons p rest ih =>
    obtain ⟨k, s⟩ := p
    rw [keysOf_cons, List.mem_cons]
    by_cases hk : k = q
    · rw [qlookup, if_pos hk] at h
      cases h
    · rw [qlookup, if_neg hk] at h
      rintro (hq | hq)
      · exact hk hq.symm
      · exact ih h hq

/-- Stepping preserves well-formedness of the connection state. -/
lemma wf_step {st st' : ConnSt} {ev : ConnEvent}
    (hwf : st.Wf) (h : st.step ev = some st') : st'.Wf := by
  cases hd : st.disconnected with
  | true =>
    cases ev <;> rw [ConnSt.step, if_pos hd] at h <;> cases h
  | false =>
  cases ev with
  | sendCall q =>
    rw [ConnSt.step, if_neg (by rw [hd]; exact Bool.false_ne_true)] at h
    cases hlk : qlookup st.qtable q with
    | some s => rw [hlk] at h; cases h
    | none =>
      rw [hlk] at h
      cases h
      rw [ConnSt.Wf, keysOf_cons, List.nodup_cons]
      exact ⟨not_mem_keysOf_of_qlookup_none hlk, hwf⟩
  | recvReturn q =>
    rw [ConnSt.step, if_neg (by rw [hd]; exact Bool.false_ne_true)] at h
    cases hlk : qlookup st.qtable q with
    | none =>
      rw [hlk] at h
      cases h
      exact hwf
    | some s =>
      cases s with
      | waiting =>
        rw [hlk] at h
        cases h
        rw [ConnSt.Wf, keysOf_qset]
        exact hwf
      | returned =>
        rw [hlk] at h
        cases h
        exact hwf
      | finishCalled =>
        rw [hlk] at h
        cases h
        exact nodup_keysOf_qremove hwf
  | sendFinish q =>
    rw [ConnSt.step, if_neg (by rw [hd]; exact Bool.false_ne_true)] at h
    cases hlk : qlookup st.qtable q with
    | none => rw [hlk] at h; cases h
    | some s =>
      cases s with
      | waiting =>
        rw [hlk] at h
        cases h
        rw [ConnSt.Wf, keysOf_qset]
        exact hwf
      | returned =>
        rw [hlk] at h
        cases h
        exact nodup_keysOf_qremove hwf
      | finishCalled => rw [hlk] at h; cases h
  | disconnect =>
    rw [ConnSt.step, if_neg (by rw [hd]; exact Bool.false_ne_true)] at h
    cases h
    exact hwf

/-- A disconnected connection refuses every operation: the only valid
continuation is the empty trace. -/
lemma run_of_disconnected {tr : List ConnEvent} {st st' : ConnSt}
    (hd : st.disconnected = true) (h : st.run tr = some st') :
    st' = st := by
  cases tr with
  | nil =>
    unfold ConnSt.run at h
    cases h
    rfl
  | cons ev rest =>
    unfold ConnSt.run at h
    have hstep : st.step ev = none := by
      cases ev <;> rw [ConnSt.step, if_pos hd]
    rw [hstep] at h
    cases h

lemma countReturn_cons_call (q q0 : Nat) (rest : List ConnEvent) :
    countReturn q (ConnEvent.sendCall q0 :: rest) = countReturn q rest := rfl

lemma countReturn_cons_recv (q q0 : Nat) (rest : List ConnEvent) :
    countReturn q (ConnEvent.recvReturn q0 :: rest) =
      (if q0 = q then 1 else 0) + countReturn q rest := rfl

lemma countReturn_cons_fin (q q0 : Nat) (rest : List ConnEvent) :
    countReturn q (ConnEvent.sendFinish q0 :: rest) = countReturn q rest := rfl

lemma countFinish_cons_call (q q0 : Nat) (rest : List ConnEvent) :
    countFinish q (ConnEvent.sendCall q0 :: rest) = countFinish q rest := rfl

lemma countFinish_cons_recv (q q0 : Nat) (rest : List ConnEvent) :
    countFinish q (ConnEvent.recvReturn q0 :: rest) = countFinish q rest := rfl

lemma countFinish_cons_fin (q q0 : Nat) (rest : List ConnEvent) :
    countFinish q (ConnEvent.sendFinish q0 :: rest) =
      (if q0 = q then 1 else 0) + countFinish q rest := rfl

lemma countCall_cons_call (q q0 : Nat) (rest : List ConnEvent) :
    countCall q (ConnEvent.sendCall q0 :: rest) =
      (if q0 = q then 1 else 0) + countCall q rest := rfl

lemma countCall_cons_recv (q q0 : Nat) (rest : List ConnEvent) :
    countCall q (ConnEvent.recvReturn q0 :: rest) = countCall q rest := rfl

lemma countCall_cons_fin (q q0 : Nat) (rest : List ConnEvent) :
    countCall q (ConnEvent.sendFinish q0 :: rest) = countCall q rest := rfl

/-- The counting invariant: along any trace the implementation can
produce that ends in a still-connected state, for every question id q
the `Return`s received plus the Returns still owed by q's live
incarnation balance the `Call`s sent with id q, and likewise for
`Finish`es. -/
lemma run_counts (tr : List ConnEvent) :
    ∀ (st st' : ConnSt), st.Wf → st.run tr = some st' →
    st'.disconnected = false →
    ∀ q, countReturn q tr + retLag st' q = countCall q tr + retLag st q ∧
         countFinish q tr + finLag st' q = countCall q tr + finLag st q := by
  induction tr with
  | nil =>
    intro st st' hwf hrun hnd q
    unfold ConnSt.run at hrun
    cases hrun
    exact ⟨by simp [countReturn, countCall],
           by simp [countFinish, countCall]⟩
  | cons ev rest ih =>
    intro st st' hwf hrun hnd q
    unfold ConnSt.run at hrun
    cases hstep : st.step ev with
    | none => rw [hstep] at hrun; cases hrun
    | some st1 =>
      rw [hstep] at hrun
      have hrun1 : st1.run rest = some st' := hrun
      have hd1 : st1.disconnected = false := by
        cases hdd : st1.disconnected with
        | false => rfl
        | true =>
          have he := run_of_disconnected hdd hrun1
          rw [he, hdd] at hnd
          exact Bool.noConfusion hnd
      have hwf1 : st1.Wf := wf_step hwf hstep
      obtain ⟨ihret, ihfin⟩ := ih st1 st' hwf1 hrun1 hnd q
      have hd0 : st.disconnected = false := by
        cases hd : st.disconnected with
        | false => rfl
        | true =>
          have hnone : st.step ev = none := by
            cases ev <;> rw [ConnSt.step, if_pos hd]
          rw [hnone] at hstep
          cases hstep
      have hdne : ¬ st.disconnected = true := by
        rw [hd0]; exact Bool.false_ne_true
      cases ev with
      | sendCall q0 =>
        rw [ConnSt.step, if_neg hdne] at hstep
        cases hlk : qlookup st.qtable q0 with
        | some s => rw [hlk] at hstep; cases hstep
        | none =>
          rw [hlk] at hstep
          cases hstep
          rw [countReturn_cons_call, countFinish_cons_call,
              countCall_cons_call]
          by_cases hq : q0 = q
          · subst hq
            have h0r : retLag st q0 = 0 := by simp [retLag, hlk]
            have h0f : finLag st q0 = 0 := by simp [finLag, hlk]
            have h1r : retLag { st with
                qtable := (q0, QState.waiting) :: st.qtable } q0 = 1 := by
              simp [retLag, qlookup]
            have h1f : finLag { st with
                qtable := (q0, QState.waiting) :: st.qtable } q0 = 1 := by
              simp [finLag, qlookup]
            rw [h1r] at ihret
            rw [h1f] at ihfin
            rw [h0r, h0f, if_pos rfl]
            refine ⟨?_, ?_⟩ <;> omega
          · have h1r : retLag { st with
                qtable := (q0, QState.waiting) :: st.qtable } q =
                retLag st q := by
              simp [retLag, qlookup, hq]
            have h1f : finLag { st with
                qtable := (q0, QState.waiting) :: st.qtable } q =
                finLag st q := by
              simp [finLag, qlookup, hq]
            rw [h1r] at ihret
            rw [h1f] at ihfin
            rw [if_neg hq]
            refine ⟨?_, ?_⟩ <;> omega
      | recvReturn q0 =>
        rw [ConnSt.step, if_neg hdne] at hstep
        cases hlk : qlookup st.qtable q0 with
        | none =>
          rw [hlk] at hstep
          cases hstep
          exact Bool.noConfusion hd1
        | some s =>
          cases s with
          | returned =>
            rw [hlk] at hstep
            cases hstep
            exact Bool.noConfusion hd1
          | waiting =>
            rw [hlk] at hstep
            cases hstep
            rw [countReturn_cons_recv, countFinish_cons_recv,
                countCall_cons_recv]
            by_cases hq : q0 = q
            · subst hq
              have h0r : retLag st q0 = 1 := by simp [retLag, hlk]
              have h0f : finLag st q0 = 1 := by simp [finLag, hlk]
              have h1r : retLag { st with
                  qtable := qset st.qtable q0 QState.returned } q0 = 0 := by
                simp [retLag, qlookup_qset_self hlk]
              have h1f : finLag { st with
                  qtable := qset st.qtable q0 QState.returned } q0 = 1 := by
                simp [finLag, qlookup_qset_self hlk]
              rw [h1r] at ihret
              rw [h1f] at ihfin
              rw [h0r, h0f, if_pos rfl]
              refine ⟨?_, ?_⟩ <;> omega
            · have hqne : q ≠ q0 := fun hc => hq hc.symm
              have h1r : retLag { st with
                  qtable := qset st.qtable q0 QState.returned } q =
                  retLag st q := by
                simp [retLag, qlookup_qset_ne hqne]
              have h1f : finLag { st with
                  qtable := qset st.qtable q0 QState.returned } q =
                  finLag st q := by
                simp [finLag, qlookup_qset_ne hqne]
              rw [h1r] at ihret
              rw [h1f] at ihfin
              rw [if_neg hq]
              refine ⟨?_, ?_⟩ <;> omega
          | finishCalled =>
            rw [hlk] at hstep
            cases hstep
            rw [countReturn_cons_recv, countFinish_cons_recv,
                countCall_cons_recv]
            by_cases hq : q0 = q
            · subst hq
              have h0r : retLag st q0 = 1 := by simp [retLag, hlk]
              have h0f : finLag st q0 = 0 := by simp [finLag, hlk]
              have h1r : retLag { st with
                  qtable := qremove st.qtable q0 } q0 = 0 := by
                simp [retLag, qlookup_qremove_self hwf]
              have h1f : finLag { st with
                  qtable := qremove st.qtable q0 } q0 = 0 := by
                simp [finLag, qlookup_qremove_self hwf]
              rw [h1r] at ihret
              rw [h1f] at ihfin
              rw [h0r, h0f, if_pos rfl]
              refine ⟨?_, ?_⟩ <;> omega
            · have hqne : q ≠ q0 := fun hc => hq hc.symm
              have h1r : retLag { st with
                  qtable := qremove st.qtable q0 } q = retLag st q := by
                simp [retLag, qlookup_qremove_ne hqne]
              have h1f : finLag { st with
                  qtable := qremove st.qtable q0 } q = finLag st q := by
                simp [finLag, qlookup_qremove_ne hqne]
              rw [h1r] at ihret
              rw [h1f] at ihfin
              rw [if_neg hq]
              refine ⟨?_, ?_⟩ <;> omega
      | sendFinish q0 =>
        rw [ConnSt.step, if_neg hdne] at hstep
        cases hlk : qlookup st.qtable q0 with
        | none => rw [hlk] at hstep; cases hstep
        | some s =>
          cases s with
          | finishCalled => rw [hlk] at hstep; cases hstep
          | returned =>
            rw [hlk] at hstep
            cases hstep
            rw [countReturn_cons_fin, countFinish_cons_fin,
                countCall_cons_fin]
            by_cases hq : q0 = q
            · subst hq
              have h0r : retLag st q0 = 0 := by simp [retLag, hlk]
              have h0f : finLag st q0 = 1 := by simp [finLag, hlk]
              have h1r : retLag { st with
                  qtable := qremove st.qtable q0 } q0 = 0 := by
                simp [retLag, qlookup_qremove_self hwf]
              have h1f : finLag { st with
                  qtable := qremove st.qtable q0 } q0 = 0 := by
                simp [finLag, qlookup_qremove_self hwf]
              rw [h1r] at ihret
              rw [h1f] at ihfin
              rw [h0r, h0f, if_pos rfl]
              refine ⟨?_, ?_⟩ <;> omega
            · have hqne : q ≠ q0 := fun hc => hq hc.symm
              have h1r : retLag { st with
                  qtable := qremove st.qtable q0 } q = retLag st q := by
                simp [retLag, qlookup_qremove_ne hqne]
              have h1f : finLag { st with
                  qtable := qremove st.qtable q0 } q = finLag st q := by
                simp [finLag, qlookup_qremove_ne hqne]
              rw [h1r] at ihret
              rw [h1f] at ihfin
              rw [if_neg hq]
              refine ⟨?_, ?_⟩ <;> omega
          | waiting =>
            rw [hlk] at hstep
            cases hstep
            rw [countReturn_cons_fin, countFinish_cons_fin,
                countCall_cons_fin]
            by_cases hq : q0 = q
            · subst hq
              have h0r : retLag st q0 = 1 := by simp [retLag, hlk]
              have h0f : finLag st q0 = 1 := by simp [finLag, hlk]
              have h1r : retLag { st with
                  qtable := qset st.qtable q0 QState.finishCalled } q0 =
                  1 := by
                simp [retLag, qlookup_qset_self hlk]
              have h1f : finLag { st with
                  qtable := qset st.qtable q0 QState.finishCalled } q0 =
                  0 := by
                simp [finLag, qlookup_qset_self hlk]
              rw [h1r] at ihret
              rw [h1f] at ihfin
              rw [h0r, h0f, if_pos rfl]
              refine ⟨?_, ?_⟩ <;> omega
            · have hqne : q ≠ q0 := fun hc => hq hc.symm
              have h1r : retLag { st with
                  qtable := qset st.qtable q0 QState.finishCalled } q =
                  retLag st q := by
                simp [retLag, qlookup_qset_ne hqne]
              have h1f : finLag { st with
                  qtable := qset st.qtable q0 QState.finishCalled } q =
                  finLag st q := by
                simp [finLag, qlookup_qset_ne hqne]
              rw [h1r] at ihret
              rw [h1f] at ihfin
              rw [if_neg hq]
              refine ⟨?_, ?_⟩ <;> omega
      | disconnect =>
        rw [ConnSt.step, if_neg hdne] at hstep
        cases hstep
        exact Bool.noConfusion hd1

/-- Counterexample to C3 as stated: question ids may be reused once
retired (§4.4 allocates the smallest free non-negative integer, and a
retired id is free again), so this complete, never-disconnected
lifetime sends id 0 twice and receives two `Return`s (and sends two
`Finish`es) for id 0 — not exactly one. -/
theorem question_per_id_once_counterexample :
    ConnSt.init.run [ConnEvent.sendCall 0, ConnEvent.recvReturn 0,
        ConnEvent.sendFinish 0, ConnEvent.sendCall 0,
        ConnEvent.recvReturn 0, ConnEvent.sendFinish 0] =
      some ⟨[], false⟩ ∧
    ConnSt.complete ⟨[], false⟩ = true ∧
    ConnSt.disconnected ⟨[], false⟩ = false ∧
    ConnEvent.sendCall 0 ∈ [ConnEvent.sendCall 0, ConnEvent.recvReturn 0,
        ConnEvent.sendFinish 0, ConnEvent.sendCall 0,
        ConnEvent.recvReturn 0, ConnEvent.sendFinish 0] ∧
    countReturn 0 [ConnEvent.sendCall 0, ConnEvent.recvReturn 0,
        ConnEvent.sendFinish 0, ConnEvent.sendCall 0,
        ConnEvent.recvReturn 0, ConnEvent.sendFinish 0] = 2 ∧
    countFinish 0 [ConnEvent.sendCall 0, ConnEvent.recvReturn 0,
        ConnEvent.sendFinish 0, ConnEvent.sendCall 0,
        ConnEvent.recvReturn 0, ConnEvent.sendFinish 0] = 2 := by
  decide

/-- C3 (amended): for every question id Q, over a complete connection
lifetime the number of `Return`s received for Q equals the number of
`Call`s sent with id Q, and likewise for `Finish`es — each send of Q
gets exactly one Return and one Finish — unless the connection becomes
disconnected first. -/
theorem question_returns_finishes_per_send (tr : List ConnEvent)
    (st' : ConnSt) (hrun : ConnSt.init.run tr = some st')
    (hcomp : st'.complete = true) :
    ∀ q, st'.disconnected = true ∨
      (countReturn q tr = countCall q tr ∧
       countFinish q tr = countCall q tr) := by
  intro q
  cases hd : st'.disconnected with
  | true => exact Or.inl rfl
  | false =>
    right
    have hwf0 : ConnSt.init.Wf := List.nodup_nil
    obtain ⟨hret, hfin⟩ := run_counts tr ConnSt.init st' hwf0 hrun hd q
    have hempty : st'.qtable = [] := by
      unfold ConnSt.complete at hcomp
      rw [hd] at hcomp
      simpa [List.isEmpty_iff] using hcomp
    have h0r : retLag ConnSt.init q = 0 := by
      simp [retLag, ConnSt.init, qlookup]
    have h0f : finLag ConnSt.init q = 0 := by
      simp [finLag, ConnSt.init, qlookup]
    have h1r : retLag st' q = 0 := by simp [retLag, hempty, qlookup]
    have h1f : finLag st' q = 0 := by simp [finLag, hempty, qlookup]
    rw [h0r, h1r] at hret
    rw [h0f, h1f] at hfin
    exact ⟨by omega, by omega⟩

/-- Witness for C3 (amended): the trace Call 0, Finish 0 (cancellation,
Finish ahead of the Return), Return 0 completes with an empty table; id
0 was sent once and got exactly one Return and one Finish. -/
theorem question_returns_finishes_per_send_witness :
    ConnSt.disconnected ⟨[], false⟩ = true ∨
    (countReturn 0 [ConnEvent.sendCall 0, ConnEvent.sendFinish 0,
        ConnEvent.recvReturn 0] =
       countCall 0 [ConnEvent.sendCall 0, ConnEvent.sendFinish 0,
        ConnEvent.recvReturn 0] ∧
     countFinish 0 [ConnEvent.sendCall 0, ConnEvent.sendFinish 0,
        ConnEvent.recvReturn 0] =
       countCall 0 [ConnEvent.sendCall 0, ConnEvent.sendFinish 0,
        ConnEvent.recvReturn 0]) :=
  question_returns_finishes_per_send
    [ConnEvent.sendCall 0, ConnEvent.sendFinish 0, ConnEvent.recvReturn 0]
    ⟨[], false⟩ (by decide) (by decide) 0

/-! ## Claim C9: missing bootstrap capability -/

/-- C9: with `bootstrap = None`, the stored bootstrap capability is a
broken hook carrying the error "no bootstrap capabiity" (sic), so
bootstrapping the local vat returns a client on which every call fails
with that stored error. -/
theorem no_bootstrap_cap_broken {VatId : Type} (net : VatNetwork VatId)
    (V : VatId) (p : Nat) (h : net.connect V = none) :
    (RpcSystem.new net none).bootstrap_cap =
      ClientHook.broken "no bootstrap capabiity" ∧
    ((RpcSystem.new net none).bootstrap V).1 =
      ClientHook.broken "no bootstrap capabiity" ∧
    ClientHook.call ((RpcSystem.new net none).bootstrap V).1 p =
      Except.error "no bootstrap capabiity" := by
  refine ⟨rfl, ?_, ?_⟩ <;>
    simp [RpcSystem.bootstrap, RpcSystem.new, h, ClientHook.call]

/-- Witness for C9: the all-local network, vat 0, params 7. -/
theorem no_bootstrap_cap_broken_witness :
    (RpcSystem.new netLocalW none).bootstrap_cap =
      ClientHook.broken "no bootstrap capabiity" ∧
    ((RpcSystem.new netLocalW none).bootstrap 0).1 =
      ClientHook.broken "no bootstrap capabiity" ∧
    ClientHook.call ((RpcSystem.new netLocalW none).bootstrap 0).1 7 =
      Except.error "no bootstrap capabiity" :=
  no_bootstrap_cap_broken netLocalW 0 7 rfl

end CapnpRpc
